import Mathlib

/-!
Verification of the chess interaction controller (`src/logic/ui.js`).

The controller mirrors an external position model onto a board of 64 square
elements.  We embed the controller shallowly:

* the DOM render state is a function `Board : Fin 64 → SquareState`, where a
  `SquareState` records the square's piece nodes (the `div` children of a
  `td`), its CSS classes and its jQuery droppable binding;
* the external position model (`Chess.Position`, `Chess.Move`) is a structure
  exposing exactly the query interface `ui.js` consumes (`getPieceBitboard`,
  `getColorBitboard`, `getTurnColor`, `getLastMove`, `getMoves`, `getStatus`);
* the pure DOM effects of `updatePieces`, the global phase of `updateMoves`,
  `clearMoving`, `clearDragging` and the hover handler are Lean functions on
  `Board`;
* the drop handler and the end-of-game lifecycle (`updateChessPosition`,
  `reset`), whose interesting content is *which* calls they make
  (`makeMove`, resynchronization, `confirm`, `new Chess.Position`), are
  embedded as event-trace producing functions.
-/

namespace Chess

/-- Piece colors, `Chess.PieceColor.WHITE` / `BLACK`. -/
inductive PieceColor where
  | white
  | black
  deriving DecidableEq, Repr, Fintype

/-- Piece types, `Chess.Piece.PAWN .. KING` in the engine's numeric order. -/
inductive Piece where
  | pawn
  | knight
  | bishop
  | rook
  | queen
  | king
  deriving DecidableEq, Repr, Fintype

/-- The scan order of the `for (piece = PAWN; piece <= KING; ++piece)` loop
in `updatePieces`. -/
def pieceScanOrder : List Piece :=
  [.pawn, .knight, .bishop, .rook, .queen, .king]

/-- Move kinds distinguished by the controller's equality tests
(`Chess.Move.Kind.POSITIONAL`, `DOUBLE_PAWN_PUSH`, `EN_PASSANT_CAPTURE`,
`KING_CASTLE`, `QUEEN_CASTLE`); `otherKind` stands for every further kind of
the external model, which the controller never compares against. -/
inductive MoveKind where
  | positional
  | doublePawnPush
  | enPassantCapture
  | kingCastle
  | queenCastle
  | otherKind
  deriving DecidableEq, Repr

/-- Terminal status classification (`Chess.Position.Status`): the controller
only distinguishes `CHECKMATE`, `NORMAL` and everything else (a draw). -/
inductive Status where
  | normal
  | checkmate
  | otherDraw
  deriving DecidableEq, Repr

/-- The slice of `Chess.Move` that `ui.js` reads: `getFrom()`, `getTo()`
(linear indices 0..63), `getKind()` and the boolean facets. -/
structure Move where
  getFrom : Fin 64
  getTo : Fin 64
  getKind : MoveKind
  isCapture : Bool
  isPromotion : Bool
  isCastle : Bool
  deriving DecidableEq, Repr

/-- The query interface of the external `Chess.Position` that `ui.js`
consumes.  `makeMove` mutates the position in place; the controller's calls
to it are captured by the event-trace model below rather than by a field. -/
structure Position where
  getPieceBitboard : Piece → Fin 64 → Bool
  getColorBitboard : PieceColor → Fin 64 → Bool
  getTurnColor : PieceColor
  getLastMove : Option Move
  getMoves : List Move
  getStatus : Status

/-- The move-related CSS classes a square `td` or a piece `div` can carry:
the classes removed by `Chess.UI.clearMoving` plus `can-move`. -/
structure Tags where
  canMove : Bool := false
  hlFrom : Bool := false
  hlTo : Bool := false
  positional : Bool := false
  capture : Bool := false
  doublePush : Bool := false
  enPassant : Bool := false
  promotion : Bool := false
  castle : Bool := false
  kingCastle : Bool := false
  queenCastle : Bool := false
  deriving DecidableEq, Repr

/-- A piece node: a `div` appended under a square's `td` by `updatePieces`.
`charColor` is the color passed to `Chess.getPieceCharacter` for the text;
`whiteClass`/`blackClass`/`turnClass` are the toggled classes; `draggable`
records a jQuery UI draggable binding. -/
structure PieceNode where
  pieceType : Piece
  charColor : PieceColor
  whiteClass : Bool
  blackClass : Bool
  turnClass : Bool
  tags : Tags := {}
  draggable : Bool := false
  deriving DecidableEq, Repr

/-- The render state of one board square (`td`): its piece-node children,
the classes `updatePieces` manages (`white black turn last-move` and the
piece names), the move-related classes, and a droppable binding. -/
structure SquareState where
  pieceNodes : List PieceNode := []
  pieceClasses : List Piece := []
  whiteClass : Bool := false
  blackClass : Bool := false
  turnClass : Bool := false
  lastMoveClass : Bool := false
  tags : Tags := {}
  droppable : Bool := false
  deriving DecidableEq, Repr

/-- The whole chessboard render state: one `SquareState` per linear index. -/
def Board : Type := Fin 64 → SquareState

/-- Replace the state of square `i` by `f` of it. -/
def updateSquare (b : Board) (i : Fin 64) (f : SquareState → SquareState) : Board :=
  fun j => if j = i then f (b j) else b j

/-- Effect of
`removeClass("from to positional capture double-push en-passant promotion castle king-castle queen-castle")`
on one tag set: every move-related class except `can-move` is dropped. -/
def Tags.clearMovingTags (t : Tags) : Tags :=
  { canMove := t.canMove }

/-- `Chess.UI.clearMoving`: removes the move-related classes (but not
`can-move`) from every square and every piece node. -/
def clearMoving (b : Board) : Board :=
  fun i =>
    let s := b i
    { s with
      tags := s.tags.clearMovingTags
      pieceNodes := s.pieceNodes.map fun n => { n with tags := n.tags.clearMovingTags } }

/-- `Chess.UI.clearDragging`: destroys every draggable binding on piece nodes
and every droppable binding on squares. -/
def clearDragging (b : Board) : Board :=
  fun i =>
    let s := b i
    { s with
      droppable := false
      pieceNodes := s.pieceNodes.map fun n => { n with draggable := false } }

/-- The piece node `updatePieces` builds for square `i`, if any: the inner
loop scans `pieceScanOrder` and breaks at the first piece bitboard containing
`i`.  Character color and the `white`/`black`/`turn` toggles follow lines
110–120 of `ui.js`. -/
def renderPiece (pos : Position) (i : Fin 64) : Option PieceNode :=
  (pieceScanOrder.find? fun p => pos.getPieceBitboard p i).map fun p =>
    let whites := pos.getColorBitboard .white
    let blacks := pos.getColorBitboard .black
    let isTurn := if pos.getTurnColor = .white then whites i else blacks i
    { pieceType := p
      charColor := if whites i then .white else .black
      whiteClass := whites i
      blackClass := blacks i
      turnClass := isTurn }

/-- `Chess.UI.prototype.updatePieces`: remove all piece nodes and the
`white black turn last-move` and piece-name classes from every square, then
render one piece node per occupied square (mirroring the node's toggled
classes onto the `td`), and finally mark the last move's squares. -/
def updatePieces (pos : Position) (b : Board) : Board :=
  let cleared : Board := fun i =>
    { b i with
      pieceNodes := []
      pieceClasses := []
      whiteClass := false
      blackClass := false
      turnClass := false
      lastMoveClass := false }
  let placed : Board := fun i =>
    match renderPiece pos i with
    | none => cleared i
    | some node =>
      { cleared i with
        pieceNodes := [node]
        pieceClasses := [node.pieceType]
        whiteClass := node.whiteClass
        blackClass := node.blackClass
        turnClass := node.turnClass }
  match pos.getLastMove with
  | none => placed
  | some m => fun i =>
    if i = m.getFrom ∨ i = m.getTo then { placed i with lastMoveClass := true }
    else placed i

/-- Add the `can-move` class to square `i` and its piece nodes. -/
def setCanMoveAt (b : Board) (i : Fin 64) : Board :=
  updateSquare b i fun s =>
    { s with
      tags := { s.tags with canMove := true }
      pieceNodes := s.pieceNodes.map fun n => { n with tags := { n.tags with canMove := true } } }

/-- The global highlighting phase of `Chess.UI.prototype.updateMoves`
(lines 140–147): clear `can-move` everywhere, then tag the origin square of
every legal move (and its piece node) `can-move`. -/
def updateMovesGlobal (pos : Position) (b : Board) : Board :=
  let cleared : Board := fun i =>
    let s := b i
    { s with
      tags := { s.tags with canMove := false }
      pieceNodes := s.pieceNodes.map fun n => { n with tags := { n.tags with canMove := false } } }
  pos.getMoves.foldl (fun acc m => setCanMoveAt acc m.getFrom) cleared

/-- The class additions lines 169–177 of `ui.js` perform on a destination
element for one move: `to` always, each subtype class when its test holds
(`addClass("")` is a no-op, hence the disjunctions). -/
def addMoveTags (m : Move) (t : Tags) : Tags :=
  { t with
    hlTo := true
    positional := t.positional || (m.getKind == .positional)
    capture := t.capture || m.isCapture
    doublePush := t.doublePush || (m.getKind == .doublePawnPush)
    enPassant := t.enPassant || (m.getKind == .enPassantCapture)
    promotion := t.promotion || m.isPromotion
    castle := t.castle || m.isCastle
    kingCastle := t.kingCastle || (m.getKind == .kingCastle)
    queenCastle := t.queenCastle || (m.getKind == .queenCastle) }

/-- Tag the destination square of move `m` and its piece nodes. -/
def tagDestination (m : Move) (b : Board) : Board :=
  updateSquare b m.getTo fun s =>
    { s with
      tags := addMoveTags m s.tags
      pieceNodes := s.pieceNodes.map fun n => { n with tags := addMoveTags m n.tags } }

/-- `toggleClass("from", ...)` on the hovered square and its piece nodes
(line 162 of `ui.js`). -/
def hoverFromToggle (isFrom : Bool) (hov : Fin 64) (b : Board) : Board :=
  updateSquare b hov fun s =>
    { s with
      tags := { s.tags with hlFrom := isFrom }
      pieceNodes := s.pieceNodes.map fun n => { n with tags := { n.tags with hlFrom := isFrom } } }

/-- The `moves.forEach` destination-tagging loop of the hover handler
(lines 165–179). -/
def tagDestinations (moves : List Move) (hov : Fin 64) (b : Board) : Board :=
  moves.foldl (fun acc m => if m.getFrom == hov then tagDestination m acc else acc) b

/-- `$(".to").droppable(...)` (line 184): attach a droppable binding to every
square carrying the `to` class. -/
def dropBindings (b : Board) : Board :=
  fun i => if (b i).tags.hlTo then { b i with droppable := true } else b i

/-- `div.draggable(...)` (line 201): attach a draggable binding to the piece
nodes of the hovered square. -/
def dragBinding (hov : Fin 64) (b : Board) : Board :=
  updateSquare b hov fun s =>
    { s with pieceNodes := s.pieceNodes.map fun n => { n with draggable := true } }

/-- The `mouseenter` handler of `updateMoves` (lines 153–208) for a hover on
square `hov`: when not dragging, toggle `from` on the hovered square and its
nodes according to whether some legal move starts there; if so, tag every
destination of a move from `hov`, tear down old drag/drop bindings, make the
`to` squares droppable and the hovered piece draggable. -/
def mouseEnter (moves : List Move) (dragging : Bool) (hov : Fin 64) (b : Board) : Board :=
  if dragging then b
  else
    let isFrom := moves.any fun m => m.getFrom == hov
    let b1 := hoverFromToggle isFrom hov b
    if isFrom then
      dragBinding hov (dropBindings (clearDragging (tagDestinations moves hov b1)))
    else b1

/-- The `mouseleave` handler (lines 209–213): clear the move-related classes
unless a drag is in progress. -/
def mouseLeave (dragging : Bool) (b : Board) : Board :=
  if dragging then b else clearMoving b

/-- Calls the controller makes, in order, inside an event handler. -/
inductive UIEvent where
  | makeMoveCall (m : Move)
  | updateChessPositionCall
  | clearMovingCall
  | clearDraggingCall
  | updatePiecesCall
  | updateMovesCall
  | confirmCall (msg : String)
  | newPositionCall
  deriving DecidableEq, Repr

/-- The drop handler (lines 185–198): filter the legal moves by the armed
origin and the dropped-on destination; if any match, submit the first to the
position and run one full resynchronization, otherwise clear the move
classes and the drag/drop bindings. -/
def onDrop (moves : List Move) (armedOrigin dropTarget : Fin 64) : List UIEvent :=
  match moves.filter (fun m => m.getFrom == armedOrigin && m.getTo == dropTarget) with
  | m :: _ => [.makeMoveCall m, .updateChessPositionCall]
  | [] => [.clearMovingCall, .clearDraggingCall]

/-- `'Black'` / `'White'` of line 230: the displayed winner is the opposite
of the side to move. -/
def winnerName (pos : Position) : String :=
  if pos.getTurnColor = .white then "Black" else "White"

/-- Display name of a color. -/
def colorName : PieceColor → String
  | .white => "White"
  | .black => "Black"

/-- The checkmate confirmation message of line 231. -/
def checkmateMsg (pos : Position) : String :=
  winnerName pos ++ " wins. Checkmate! Do you want to restart the game?"

/-- The draw confirmation message of line 235. -/
def drawMsg : String :=
  "The game is a draw. Do you want to restart the game?"

/-- The calls a resynchronization pass makes before reading the status
prompt: `clearMoving`, `clearDragging`, `updatePieces`, `updateMoves`
(lines 221–227). -/
def resyncEvs : List UIEvent :=
  [.clearMovingCall, .clearDraggingCall, .updatePiecesCall, .updateMovesCall]

/-- Trace model of `Chess.UI.prototype.updateChessPosition` together with
`reset`.  `initialPos` stands for `new Chess.Position()`; `confirmAns k` is
the user's answer to the `k`-th confirmation prompt; `fuel` bounds the
`reset → updateChessPosition` recursion (depth 2 suffices whenever the fresh
initial position is non-terminal).  Returns the emitted call trace and the
position the controller holds afterwards. -/
def updateChessPositionT (initialPos : Position) (confirmAns : Nat → Bool) :
    Nat → Nat → Position → List UIEvent × Position
  | 0, _, pos => ([], pos)
  | fuel + 1, k, pos =>
    match pos.getStatus with
    | .normal => (resyncEvs, pos)
    | .checkmate =>
      if confirmAns k then
        let rest := updateChessPositionT initialPos confirmAns fuel (k + 1) initialPos
        (resyncEvs ++ [.confirmCall (checkmateMsg pos), .newPositionCall] ++ rest.1, rest.2)
      else
        (resyncEvs ++ [.confirmCall (checkmateMsg pos)], pos)
    | .otherDraw =>
      if confirmAns k then
        let rest := updateChessPositionT initialPos confirmAns fuel (k + 1) initialPos
        (resyncEvs ++ [.confirmCall drawMsg, .newPositionCall] ++ rest.1, rest.2)
      else
        (resyncEvs ++ [.confirmCall drawMsg], pos)

/-- The board-state effect of one resynchronization pass of
`updateChessPosition`: clear move classes, tear down bindings, rebuild piece
nodes, rebuild the `can-move` highlights. -/
def resyncBoard (pos : Position) (b : Board) : Board :=
  updateMovesGlobal pos (updatePieces pos (clearDragging (clearMoving b)))

/-- Modelled from the spec: well-formedness of the external position model,
which is not part of `src/` (spec §3: occupancy sets represent the squares
held by one color or one piece type; invariant (d): no two piece-type sets
claim the same square).  A square is occupied by some piece type iff it is
held by exactly one color, and by at most one piece type. -/
def Position.WF (pos : Position) : Prop :=
  (∀ i : Fin 64,
      (∃ p ∈ pieceScanOrder, pos.getPieceBitboard p i = true) ↔
        (pos.getColorBitboard .white i = true ∨ pos.getColorBitboard .black i = true)) ∧
  (∀ i : Fin 64,
      ¬(pos.getColorBitboard .white i = true ∧ pos.getColorBitboard .black i = true)) ∧
  (∀ i : Fin 64, ∀ p q : Piece,
      pos.getPieceBitboard p i = true → pos.getPieceBitboard q i = true → p = q)

instance (pos : Position) : Decidable pos.WF := by
  unfold Position.WF; infer_instance

/-- The move-related classes other than `can-move` are all absent: the state
`clearMoving` establishes and every hover pass starts from. -/
def Tags.movingClear (t : Tags) : Prop :=
  t.hlFrom = false ∧ t.hlTo = false ∧ t.positional = false ∧ t.capture = false ∧
  t.doublePush = false ∧ t.enPassant = false ∧ t.promotion = false ∧
  t.castle = false ∧ t.kingCastle = false ∧ t.queenCastle = false

instance (t : Tags) : Decidable t.movingClear := by
  unfold Tags.movingClear; infer_instance

/-! ### Concrete sample data, used to evaluate the theorems on real inputs -/

/-- A board with no piece nodes, classes or bindings on any square. -/
def emptyBoard : Board := fun _ => {}

/-- A double-pawn-push move e2–e4 (indices 12 → 28). -/
def mv0 : Move :=
  { getFrom := 12, getTo := 28, getKind := .doublePawnPush,
    isCapture := false, isPromotion := false, isCastle := false }

/-- A positional move from square 0 to square 8. -/
def sampleMove : Move :=
  { getFrom := 0, getTo := 8, getKind := .positional,
    isCapture := false, isPromotion := false, isCastle := false }

/-- A promotion move (kind not among the five the controller names). -/
def promoMove : Move :=
  { getFrom := 52, getTo := 60, getKind := .otherKind,
    isCapture := false, isPromotion := true, isCastle := false }

/-- A capturing promotion to the same destination as `promoMove`. -/
def promoCaptureMove : Move :=
  { getFrom := 52, getTo := 60, getKind := .otherKind,
    isCapture := true, isPromotion := true, isCastle := false }

/-- A position holding a single white pawn on square 0 with one legal move. -/
def samplePos : Position :=
  { getPieceBitboard := fun p i => p == .pawn && i == 0
    getColorBitboard := fun c i => c == .white && i == 0
    getTurnColor := .white
    getLastMove := none
    getMoves := [sampleMove]
    getStatus := .normal }

/-- The render state after the global highlighting phase on `samplePos`:
square 0 carries `can-move`. -/
def canMoveBoard : Board := updateMovesGlobal samplePos emptyBoard

/-- A well-formed two-king position: white king on 4, black king on 60,
white to move. -/
def wfPos : Position :=
  { getPieceBitboard := fun p i => p == .king && (i == 4 || i == 60)
    getColorBitboard := fun c i => (c == .white && i == 4) || (c == .black && i == 60)
    getTurnColor := .white
    getLastMove := none
    getMoves := []
    getStatus := .normal }

/-- A position whose only occupancy data is a rook bit on square 0, with
both color occupancy sets empty. -/
def strayRookPos : Position :=
  { getPieceBitboard := fun p i => p == .rook && i == 0
    getColorBitboard := fun _ _ => false
    getTurnColor := .white
    getLastMove := none
    getMoves := []
    getStatus := .normal }

/-- A position reporting checkmate with white to move. -/
def matedPos : Position :=
  { getPieceBitboard := fun _ _ => false
    getColorBitboard := fun _ _ => false
    getTurnColor := .white
    getLastMove := none
    getMoves := []
    getStatus := .checkmate }

end Chess

namespace Chess

/-! ### Helper lemmas -/

lemma find?_eq_some_split {α : Type} (pred : α → Bool) :
    ∀ (l : List α) (a : α), l.find? pred = some a →
      pred a = true ∧ ∃ l1 l2, l = l1 ++ a :: l2 ∧ ∀ x ∈ l1, pred x = false := by
  intro l
  induction l with
  | nil => intro a h; simp [List.find?] at h
  | cons x xs ih =>
    intro a h
    by_cases hx : pred x = true
    · rw [List.find?_cons_of_pos _ hx] at h
      obtain rfl : x = a := by injection h
      exact ⟨hx, [], xs, rfl, by simp⟩
    · rw [List.find?_cons_of_neg _ (by simpa using hx)] at h
      obtain ⟨ha, l1, l2, rfl, hl1⟩ := ih a h
      refine ⟨ha, x :: l1, l2, rfl, ?_⟩
      intro y hy
      rcases List.mem_cons.mp hy with rfl | hy
      · simpa using hx
      · exact hl1 y hy

lemma find?_eq_some_of_split {α : Type} (pred : α → Bool) :
    ∀ (l1 : List α) (l2 : List α) (a : α), pred a = true → (∀ x ∈ l1, pred x = false) →
      (l1 ++ a :: l2).find? pred = some a := by
  intro l1
  induction l1 with
  | nil => intro l2 a ha _; simpa using List.find?_cons_of_pos _ ha
  | cons x xs ih =>
    intro l2 a ha hall
    have hx : pred x = false := hall x (by simp)
    rw [List.cons_append, List.find?_cons_of_neg _ (by simp [hx])]
    exact ih l2 a ha fun y hy => hall y (List.mem_cons_of_mem _ hy)

lemma find?_isSome_iff {α : Type} (pred : α → Bool) :
    ∀ (l : List α), (l.find? pred).isSome = true ↔ ∃ x ∈ l, pred x = true := by
  intro l
  induction l with
  | nil => simp [List.find?]
  | cons x xs ih =>
    by_cases hx : pred x = true
    · simp [List.find?_cons_of_pos _ hx, hx]
    · rw [List.find?_cons_of_neg _ (by simpa using hx)]
      simp only [ih, List.mem_cons]
      constructor
      · rintro ⟨y, hy, hpy⟩; exact ⟨y, Or.inr hy, hpy⟩
      · rintro ⟨y, rfl | hy, hpy⟩
        · exact absurd hpy hx
        · exact ⟨y, hy, hpy⟩

lemma filter_head_of_first_match {α : Type} (pred : α → Bool) :
    ∀ (l : List α) (a : α), a ∈ l → pred a = true → (∀ b ∈ l, pred b = true → b = a) →
      ∃ t, l.filter pred = a :: t := by
  intro l
  induction l with
  | nil => intro a ha; simp at ha
  | cons x xs ih =>
    intro a ha hpa huniq
    by_cases hx : pred x = true
    · obtain rfl : x = a := huniq x (by simp) hx
      exact ⟨xs.filter pred, by simp [List.filter_cons, hx]⟩
    · have hax : a ≠ x := fun h => hx (h ▸ hpa)
      have ha' : a ∈ xs := by
        rcases List.mem_cons.mp ha with h | h
        · exact absurd h hax
        · exact h
      obtain ⟨t, ht⟩ := ih a ha' hpa fun b hb => huniq b (List.mem_cons_of_mem _ hb)
      exact ⟨t, by simp [List.filter_cons, hx, ht]⟩

/-- The square state produced by `updatePieces` holds exactly the piece nodes
of `renderPiece`. -/
lemma updatePieces_pieceNodes (pos : Position) (b : Board) (i : Fin 64) :
    ((updatePieces pos b) i).pieceNodes = (renderPiece pos i).toList := by
  unfold updatePieces
  cases hlm : pos.getLastMove with
  | none => cases hrp : renderPiece pos i <;> simp [hrp]
  | some m =>
    by_cases hi : i = m.getFrom ∨ i = m.getTo <;>
      cases hrp : renderPiece pos i <;> simp [hi, hrp]

/-- Per-square effect of the `can-move` tagging fold of `updateMovesGlobal`. -/
lemma canMove_foldl (ms : List Move) :
    ∀ (b : Board) (i : Fin 64),
      ((ms.foldl (fun acc m => setCanMoveAt acc m.getFrom) b) i).tags.canMove
        = ((b i).tags.canMove || ms.any fun m => m.getFrom == i) := by
  induction ms with
  | nil => intro b i; simp
  | cons m rest ih =>
    intro b i
    rw [List.foldl_cons, ih]
    by_cases hi : i = m.getFrom
    · simp [setCanMoveAt, updateSquare, hi, beq_iff_eq]
    · have : (m.getFrom == i) = false := by
        simp [beq_iff_eq]; exact fun h => hi h.symm
      simp [setCanMoveAt, updateSquare, hi, this]

end Chess

open Chess

/-! ### Claim theorems -/

/-- Claim C2: after the global highlighting phase of a synchronization pass
(`updateMoves`), a square carries the `can-move` tag iff it is the origin of
some move returned by the position's `getMoves` query — previous `can-move`
tags having been cleared first. -/
theorem C2_canMove_equals_origins (pos : Chess.Position) (b : Chess.Board) (i : Fin 64) :
    ((Chess.updateMovesGlobal pos b) i).tags.canMove = true ↔
      ∃ m ∈ pos.getMoves, m.getFrom = i := by
  unfold Chess.updateMovesGlobal
  rw [Chess.canMove_foldl]
  simp [List.any_eq_true, beq_iff_eq]

/-- Claim C9: a square in some piece-type occupancy set but not in the white
color occupancy set is rendered as a black piece character; its piece node's
`white` class is off and its `black` class follows the black occupancy set
alone, so a square in neither color set gets a black character and neither
color class. -/
theorem C9_black_by_default (pos : Chess.Position) (b : Chess.Board) (i : Fin 64)
    (hw : pos.getColorBitboard .white i = false) :
    ((∃ p ∈ Chess.pieceScanOrder, pos.getPieceBitboard p i = true) →
        ((Chess.updatePieces pos b) i).pieceNodes ≠ []) ∧
    ∀ n ∈ ((Chess.updatePieces pos b) i).pieceNodes,
      n.charColor = .black ∧ n.whiteClass = false ∧
        n.blackClass = pos.getColorBitboard .black i := by
  rw [Chess.updatePieces_pieceNodes]
  constructor
  · intro hex
    have : ((Chess.pieceScanOrder.find? fun p => pos.getPieceBitboard p i).isSome) = true :=
      (Chess.find?_isSome_iff _ _).mpr hex
    unfold Chess.renderPiece
    cases hf : Chess.pieceScanOrder.find? fun p => pos.getPieceBitboard p i
    · rw [hf] at this; simp at this
    · simp [hf]
  · intro n hn
    unfold Chess.renderPiece at hn
    cases hf : Chess.pieceScanOrder.find? fun p => pos.getPieceBitboard p i <;>
      rw [hf] at hn
    · simp at hn
    · simp at hn
      subst hn
      simp [hw]

/-- Claim C10: even when several piece-type occupancy sets contain the same
square index, `updatePieces` creates at most one piece node for that square,
and any node it creates is tagged with the first matching piece type in the
fixed pawn-through-king scan order. -/
theorem C10_at_most_one_node (pos : Chess.Position) (b : Chess.Board) (i : Fin 64) :
    ((Chess.updatePieces pos b) i).pieceNodes.length ≤ 1 ∧
    ∀ n ∈ ((Chess.updatePieces pos b) i).pieceNodes,
      pos.getPieceBitboard n.pieceType i = true ∧
      ∃ l1 l2, Chess.pieceScanOrder = l1 ++ n.pieceType :: l2 ∧
        ∀ q ∈ l1, pos.getPieceBitboard q i = false := by
  rw [Chess.updatePieces_pieceNodes]
  constructor
  · cases Chess.renderPiece pos i <;> simp
  · intro n hn
    unfold Chess.renderPiece at hn
    cases hf : Chess.pieceScanOrder.find? fun p => pos.getPieceBitboard p i <;>
      rw [hf] at hn
    · simp at hn
    · simp at hn
      obtain ⟨hp, l1, l2, hsplit, hl1⟩ := Chess.find?_eq_some_split _ _ _ hf
      subst hn
      exact ⟨hp, l1, l2, hsplit, hl1⟩

/-- Claim C4: `updatePieces` scans piece types in the fixed pawn-through-king
order and renders, for the first type whose occupancy set contains the
square, a single piece node tagged with that type, colored white/black
according to which color occupancy set contains the index, with the turn flag
true iff the occupying color is the side to move. -/
theorem C4_first_match_render (pos : Chess.Position) (b : Chess.Board) (i : Fin 64)
    (l1 l2 : List Chess.Piece) (p : Chess.Piece) (col : Chess.PieceColor)
    (hsplit : Chess.pieceScanOrder = l1 ++ p :: l2)
    (hfirst : ∀ q ∈ l1, pos.getPieceBitboard q i = false)
    (hp : pos.getPieceBitboard p i = true)
    (hcol : ∀ c, pos.getColorBitboard c i = true ↔ c = col) :
    ∃ node : Chess.PieceNode,
      ((Chess.updatePieces pos b) i).pieceNodes = [node] ∧
      node.pieceType = p ∧
      node.charColor = col ∧
      (node.whiteClass = true ↔ col = .white) ∧
      (node.blackClass = true ↔ col = .black) ∧
      (node.turnClass = true ↔ pos.getTurnColor = col) := by
  have hf : (Chess.pieceScanOrder.find? fun q => pos.getPieceBitboard q i) = some p := by
    rw [hsplit]
    exact Chess.find?_eq_some_of_split _ l1 l2 p hp hfirst
  rw [Chess.updatePieces_pieceNodes]
  unfold Chess.renderPiece
  rw [hf]
  refine ⟨_, rfl, rfl, ?_⟩
  cases col with
  | white =>
    have hw : pos.getColorBitboard .white i = true := (hcol .white).mpr rfl
    have hb : pos.getColorBitboard .black i = false := by
      cases h : pos.getColorBitboard .black i
      · rfl
      · have := (hcol .black).mp h
        simp at this
    cases ht : pos.getTurnColor <;> simp [hw, hb, ht]
  | black =>
    have hb : pos.getColorBitboard .black i = true := (hcol .black).mpr rfl
    have hw : pos.getColorBitboard .white i = false := by
      cases h : pos.getColorBitboard .white i
      · rfl
      · have := (hcol .white).mp h
        simp at this
    cases ht : pos.getTurnColor <;> simp [hw, hb, ht]

/-- Claim C3: for a well-formed external position, after `updatePieces` the
squares holding a piece node are exactly those in the union of the two color
occupancy sets, no square holds more than one node, and every node's
color/type/turn tags match the reported occupancy sets and side to move. -/
theorem C3_piece_nodes_match_occupancy (pos : Chess.Position) (b : Chess.Board)
    (hwf : pos.WF) (i : Fin 64) :
    (((Chess.updatePieces pos b) i).pieceNodes ≠ [] ↔
      (pos.getColorBitboard .white i = true ∨ pos.getColorBitboard .black i = true)) ∧
    ((Chess.updatePieces pos b) i).pieceNodes.length ≤ 1 ∧
    ∀ n ∈ ((Chess.updatePieces pos b) i).pieceNodes,
      n.whiteClass = pos.getColorBitboard .white i ∧
      n.blackClass = pos.getColorBitboard .black i ∧
      pos.getPieceBitboard n.pieceType i = true ∧
      (∀ q, pos.getPieceBitboard q i = true → q = n.pieceType) ∧
      (n.charColor = .white ↔ pos.getColorBitboard .white i = true) ∧
      (n.turnClass = true ↔ n.charColor = pos.getTurnColor) := by
  obtain ⟨hocc, hdisj, huniq⟩ := hwf
  simp only [Chess.updatePieces_pieceNodes]
  refine ⟨?_, ?_, ?_⟩
  · unfold Chess.renderPiece
    cases hf : Chess.pieceScanOrder.find? fun q => pos.getPieceBitboard q i
    · have hnone : ¬∃ q ∈ Chess.pieceScanOrder, pos.getPieceBitboard q i = true := by
        intro hex
        have := (Chess.find?_isSome_iff _ _).mpr hex
        rw [hf] at this
        simp at this
      have := (hocc i).not.mp hnone
      simp [this]
    · rename_i p
      obtain ⟨hp, m1, m2, hsp, _⟩ := Chess.find?_eq_some_split _ _ _ hf
      have hmem : p ∈ Chess.pieceScanOrder := by rw [hsp]; simp
      have := (hocc i).mp ⟨p, hmem, hp⟩
      simp [this]
  · cases Chess.renderPiece pos i <;> simp
  · intro n hn
    unfold Chess.renderPiece at hn
    cases hf : Chess.pieceScanOrder.find? fun q => pos.getPieceBitboard q i <;>
      rw [hf] at hn
    · simp at hn
    · rename_i p
      simp at hn
      obtain ⟨hp, _, _, _, _⟩ := Chess.find?_eq_some_split _ _ _ hf
      have hmem : p ∈ Chess.pieceScanOrder := by
        obtain ⟨_, m1, m2, hsp, _⟩ := Chess.find?_eq_some_split _ _ _ hf
        rw [hsp]; simp
      have hor : pos.getColorBitboard .white i = true ∨ pos.getColorBitboard .black i = true :=
        (hocc i).mp ⟨p, hmem, hp⟩
      subst hn
      refine ⟨rfl, rfl, hp, fun q hq => huniq i q p hq hp, ?_, ?_⟩
      · cases hwi : pos.getColorBitboard .white i <;> simp [hwi]
      · cases hwi : pos.getColorBitboard .white i <;>
          cases hbi : pos.getColorBitboard .black i <;>
          cases ht : pos.getTurnColor <;>
          simp_all

/-- Claim C1: when exactly one legal move has the armed origin and the
dropped-on destination, the drop handler calls the position's `makeMove`
exactly once with that move and then performs exactly one full
resynchronization. -/
theorem C1_unique_drop_commit (moves : List Chess.Move) (armedOrigin dropTarget : Fin 64)
    (m : Chess.Move) (hm : m ∈ moves)
    (hfrom : m.getFrom = armedOrigin) (hto : m.getTo = dropTarget)
    (huniq : ∀ m' ∈ moves, m'.getFrom = armedOrigin → m'.getTo = dropTarget → m' = m) :
    Chess.onDrop moves armedOrigin dropTarget =
      [.makeMoveCall m, .updateChessPositionCall] := by
  have hpred : (m.getFrom == armedOrigin && m.getTo == dropTarget) = true := by
    simp [hfrom, hto]
  obtain ⟨t, ht⟩ := Chess.filter_head_of_first_match
    (fun m' => m'.getFrom == armedOrigin && m'.getTo == dropTarget) moves m hm hpred
    (by
      intro m' hm' hp
      simp only [Bool.and_eq_true, beq_iff_eq] at hp
      exact huniq m' hm' hp.1 hp.2)
  unfold Chess.onDrop
  rw [ht]

/-- Claim C7: when more than one legal move matches the armed origin and the
dropped-on destination (multiple promotion choices), the drop handler submits
the first match in the legal-move list's order, with no disambiguation. -/
theorem C7_ambiguous_drop_first_match (l1 l2 : List Chess.Move)
    (armedOrigin dropTarget : Fin 64) (m : Chess.Move)
    (hl1 : ∀ m' ∈ l1, ¬(m'.getFrom = armedOrigin ∧ m'.getTo = dropTarget))
    (hfrom : m.getFrom = armedOrigin) (hto : m.getTo = dropTarget)
    (hmore : ∃ m' ∈ l2, m'.getFrom = armedOrigin ∧ m'.getTo = dropTarget) :
    Chess.onDrop (l1 ++ m :: l2) armedOrigin dropTarget =
      [.makeMoveCall m, .updateChessPositionCall] := by
  have h1 : (l1.filter fun m' => m'.getFrom == armedOrigin && m'.getTo == dropTarget) = [] := by
    rw [List.filter_eq_nil_iff]
    intro a ha
    simp only [Bool.and_eq_true, beq_iff_eq]
    exact fun hc => hl1 a ha hc
  have hfil : ((l1 ++ m :: l2).filter
      fun m' => m'.getFrom == armedOrigin && m'.getTo == dropTarget)
      = m :: (l2.filter fun m' => m'.getFrom == armedOrigin && m'.getTo == dropTarget) := by
    rw [List.filter_append, h1, List.nil_append, List.filter_cons]
    simp [hfrom, hto]
  unfold Chess.onDrop
  rw [hfil]

/-- Claim C6 counterexample: an invalid drop (zero matching moves) runs only
`clearMoving` and `clearDragging`, and these do NOT clear every highlight
tag: starting from the reachable state `canMoveBoard` produced by the global
highlighting phase, square 0 still carries the `can-move` highlight tag after
the clearing pass. -/
theorem C6_counterexample :
    Chess.onDrop [Chess.sampleMove] 0 1 =
      [.clearMovingCall, .clearDraggingCall] ∧
    ¬ (∀ i : Fin 64,
        ((Chess.clearDragging (Chess.clearMoving Chess.canMoveBoard)) i).tags = {}) := by
  constructor
  · decide
  · intro hall
    have h := hall 0
    have : ((Chess.clearDragging (Chess.clearMoving Chess.canMoveBoard))
        (0 : Fin 64)).tags.canMove = true := by decide
    rw [h] at this
    simp at this

/-- Claim C6 (amended): a drop with zero matching moves does not mutate the
position (no `makeMove` call) and clears the hover highlight tags (`from`,
`to` and the move-subtype tags) and all drag/drop bindings; the `can-move`
tags are left in place, matching the idle affordance. -/
theorem C6_invalid_drop_no_mutation (moves : List Chess.Move)
    (armedOrigin dropTarget : Fin 64)
    (hz : ∀ m ∈ moves, ¬(m.getFrom = armedOrigin ∧ m.getTo = dropTarget)) :
    Chess.onDrop moves armedOrigin dropTarget =
      [.clearMovingCall, .clearDraggingCall] ∧
    (∀ m, Chess.UIEvent.makeMoveCall m ∉ Chess.onDrop moves armedOrigin dropTarget) ∧
    ∀ (b : Chess.Board) (i : Fin 64),
      ((Chess.clearDragging (Chess.clearMoving b)) i).tags.movingClear ∧
      ((Chess.clearDragging (Chess.clearMoving b)) i).tags.canMove = (b i).tags.canMove ∧
      ((Chess.clearDragging (Chess.clearMoving b)) i).droppable = false ∧
      ∀ n ∈ ((Chess.clearDragging (Chess.clearMoving b)) i).pieceNodes,
        n.tags.movingClear ∧ n.draggable = false := by
  have hfil : (moves.filter
      fun m' => m'.getFrom == armedOrigin && m'.getTo == dropTarget) = [] := by
    rw [List.filter_eq_nil_iff]
    intro a ha
    simp only [Bool.and_eq_true, beq_iff_eq]
    exact fun hc => hz a ha hc
  have htr : Chess.onDrop moves armedOrigin dropTarget =
      [.clearMovingCall, .clearDraggingCall] := by
    unfold Chess.onDrop
    rw [hfil]
  refine ⟨htr, ?_, ?_⟩
  · intro m hmem
    rw [htr] at hmem
    simp at hmem
  · intro b i
    refine ⟨?_, ?_, ?_, ?_⟩
    · simp [Chess.clearDragging, Chess.clearMoving, Chess.Tags.clearMovingTags,
        Chess.Tags.movingClear]
    · simp [Chess.clearDragging, Chess.clearMoving, Chess.Tags.clearMovingTags]
    · simp [Chess.clearDragging]
    · intro n hn
      simp only [Chess.clearDragging, Chess.clearMoving, List.map_map, List.mem_map,
        Function.comp] at hn
      obtain ⟨n0, _, rfl⟩ := hn
      exact ⟨by simp [Chess.Tags.clearMovingTags, Chess.Tags.movingClear], rfl⟩

/-- Claim C5: when a resynchronization finds checkmate, the controller shows
a blocking confirmation whose named winner is exactly the side not to move
(so the losing side is the side that was to move); accepting replaces the
position with the fresh initial position and resynchronizes once more, and
declining leaves the terminal position untouched after its single render. -/
theorem C5_checkmate_lifecycle (pos initialPos : Chess.Position) (confirmAns : Nat → Bool)
    (hck : pos.getStatus = .checkmate) (hinit : initialPos.getStatus = .normal) :
    (∀ c, Chess.winnerName pos = Chess.colorName c ↔ c ≠ pos.getTurnColor) ∧
    (confirmAns 0 = true →
      Chess.updateChessPositionT initialPos confirmAns 2 0 pos =
        (Chess.resyncEvs ++ [.confirmCall (Chess.checkmateMsg pos), .newPositionCall] ++
          Chess.resyncEvs, initialPos)) ∧
    (confirmAns 0 = false →
      Chess.updateChessPositionT initialPos confirmAns 2 0 pos =
        (Chess.resyncEvs ++ [.confirmCall (Chess.checkmateMsg pos)], pos)) := by
  refine ⟨?_, ?_, ?_⟩
  · intro c
    cases ht : pos.getTurnColor <;> cases c <;>
      simp [Chess.winnerName, Chess.colorName, ht]
  · intro ha
    show Chess.updateChessPositionT initialPos confirmAns (1 + 1) 0 pos = _
    rw [Chess.updateChessPositionT, hck]
    simp only [ha, if_true]
    show (_ ++ _ ++ (Chess.updateChessPositionT initialPos confirmAns (0 + 1) 1
      initialPos).1, (Chess.updateChessPositionT initialPos confirmAns (0 + 1) 1
      initialPos).2) = _
    rw [Chess.updateChessPositionT, hinit]
  · intro ha
    show Chess.updateChessPositionT initialPos confirmAns (1 + 1) 0 pos = _
    rw [Chess.updateChessPositionT, hck]
    simp [ha]

namespace Chess

/-! ### Hover-phase helper lemmas -/

/-- Per-square effect of the destination-tagging fold of the hover phase:
square `i` receives `addMoveTags` for exactly the moves from `hov` to `i`,
in list order, on the square's tag set and on each of its piece nodes. -/
lemma tagDest_foldl (hov : Fin 64) :
    ∀ (ms : List Move) (b : Board) (i : Fin 64),
      ((ms.foldl (fun acc m => if m.getFrom == hov then tagDestination m acc else acc) b) i)
        = { b i with
            tags := ((ms.filter fun m => m.getFrom == hov && m.getTo == i).foldl
              (fun t m => addMoveTags m t) (b i).tags)
            pieceNodes := (b i).pieceNodes.map fun n =>
              { n with tags := ((ms.filter fun m => m.getFrom == hov && m.getTo == i).foldl
                  (fun t m => addMoveTags m t) n.tags) } } := by
  intro ms
  induction ms with
  | nil =>
    intro b i
    simp only [List.foldl_nil, List.filter_nil]
    have h : ((b i).pieceNodes.map fun n => { n with tags := n.tags }) = (b i).pieceNodes := by
      have he : (fun n : PieceNode => { n with tags := n.tags }) = id := by
        funext n; rfl
      rw [he, List.map_id]
    rw [h]
  | cons m rest ih =>
    intro b i
    rw [List.foldl_cons]
    by_cases hm : (m.getFrom == hov) = true
    · rw [if_pos hm, ih (tagDestination m b) i]
      by_cases hi : i = m.getTo
      · have hpred : (m.getFrom == hov && m.getTo == i) = true := by
          simp [hm, beq_iff_eq, hi]
        rw [List.filter_cons, if_pos hpred, List.foldl_cons]
        simp only [tagDestination, updateSquare, if_pos hi]
        simp [List.map_map, Function.comp]
      · have hpred : (m.getFrom == hov && m.getTo == i) = false := by
          simp [beq_iff_eq]
          intro _
          exact fun hc => hi hc.symm
        rw [List.filter_cons, if_neg (by simp [hpred])]
        simp only [tagDestination, updateSquare, if_neg hi]
    · rw [if_neg (by simp [hm])]
      have hpred : (m.getFrom == hov && m.getTo == i) = false := by
        simp [hm]
      rw [List.filter_cons, if_neg (by simp [hpred])]
      exact ih b i

/-- Any field of the tag set that `addMoveTags` accumulates with a boolean
disjunction is, after folding over a move list, its initial value or-ed with
`any` of the per-move contribution. -/
lemma foldTags_field (f : Tags → Bool) (g : Move → Bool)
    (hf : ∀ m t, f (addMoveTags m t) = (f t || g m)) :
    ∀ (ml : List Move) (t : Tags),
      f (ml.foldl (fun t m => addMoveTags m t) t) = (f t || ml.any g) := by
  intro ml
  induction ml with
  | nil => intro t; simp
  | cons m rest ih =>
    intro t
    rw [List.foldl_cons, ih, hf]
    simp [Bool.or_assoc]

end Chess

namespace Chess

lemma clearDragging_tags (b : Board) (i : Fin 64) :
    ((clearDragging b) i).tags = (b i).tags := rfl

lemma clearDragging_nodeTags (b : Board) (i : Fin 64) :
    ((clearDragging b) i).pieceNodes.map PieceNode.tags
      = (b i).pieceNodes.map PieceNode.tags := by
  simp only [clearDragging, List.map_map]
  rfl

lemma dropBindings_tags (b : Board) (i : Fin 64) :
    ((dropBindings b) i).tags = (b i).tags := by
  unfold dropBindings
  by_cases h : (b i).tags.hlTo = true <;> simp [h]

lemma dropBindings_nodeTags (b : Board) (i : Fin 64) :
    ((dropBindings b) i).pieceNodes.map PieceNode.tags
      = (b i).pieceNodes.map PieceNode.tags := by
  unfold dropBindings
  by_cases h : (b i).tags.hlTo = true <;> simp [h]

lemma dragBinding_tags (hov : Fin 64) (b : Board) (i : Fin 64) :
    ((dragBinding hov b) i).tags = (b i).tags := by
  unfold dragBinding updateSquare
  by_cases h : i = hov <;> simp [h]

lemma dragBinding_nodeTags (hov : Fin 64) (b : Board) (i : Fin 64) :
    ((dragBinding hov b) i).pieceNodes.map PieceNode.tags
      = (b i).pieceNodes.map PieceNode.tags := by
  unfold dragBinding updateSquare
  by_cases h : i = hov
  · simp only [h, eq_self_iff_true, if_true, List.map_map]
    rfl
  · simp [h]

lemma hoverFromToggle_apply (isFrom : Bool) (hov : Fin 64) (b : Board) (i : Fin 64) :
    ((hoverFromToggle isFrom hov b) i)
      = if i = hov then
          { b i with
            tags := { (b i).tags with hlFrom := isFrom }
            pieceNodes := (b i).pieceNodes.map fun n =>
              { n with tags := { n.tags with hlFrom := isFrom } } }
        else b i := by
  unfold hoverFromToggle updateSquare
  by_cases h : i = hov <;> simp [h]

/-- Tags of square `i` and of its piece nodes after a hover on `hov` (not
mid-drag, with `hov` the origin of some legal move): the destination-tag
fold applied to the pre-hover tags, with `from` set at the hovered square. -/
lemma mouseEnter_apply (moves : List Move) (hov : Fin 64) (b : Board)
    (hfrom : (moves.any fun m => m.getFrom == hov) = true) (i : Fin 64) :
    ((mouseEnter moves false hov b) i).tags
        = ((moves.filter fun m => m.getFrom == hov && m.getTo == i).foldl
            (fun t m => addMoveTags m t)
            (if i = hov then { (b i).tags with hlFrom := true } else (b i).tags)) ∧
    ((mouseEnter moves false hov b) i).pieceNodes.map PieceNode.tags
        = ((b i).pieceNodes.map fun n =>
            (moves.filter fun m => m.getFrom == hov && m.getTo == i).foldl
              (fun t m => addMoveTags m t)
              (if i = hov then { n.tags with hlFrom := true } else n.tags)) := by
  have hme : mouseEnter moves false hov b
      = dragBinding hov (dropBindings (clearDragging
          (tagDestinations moves hov (hoverFromToggle true hov b)))) := by
    unfold mouseEnter
    simp [hfrom]
  rw [hme]
  have htag : (tagDestinations moves hov (hoverFromToggle true hov b)) i
      = { (hoverFromToggle true hov b) i with
          tags := ((moves.filter fun m => m.getFrom == hov && m.getTo == i).foldl
            (fun t m => addMoveTags m t) ((hoverFromToggle true hov b) i).tags)
          pieceNodes := ((hoverFromToggle true hov b) i).pieceNodes.map fun n =>
            { n with tags := ((moves.filter fun m => m.getFrom == hov && m.getTo == i).foldl
                (fun t m => addMoveTags m t) n.tags) } } :=
    tagDest_foldl hov moves _ i
  constructor
  · rw [dragBinding_tags, dropBindings_tags, clearDragging_tags, htag]
    rw [hoverFromToggle_apply]
    by_cases h : i = hov <;> simp [h]
  · rw [dragBinding_nodeTags, dropBindings_nodeTags, clearDragging_nodeTags, htag]
    rw [hoverFromToggle_apply]
    by_cases h : i = hov
    · simp only [h, eq_self_iff_true, if_true, List.map_map]
      rfl
    · simp only [h, if_neg h, List.map_map]
      rfl

end Chess

namespace Chess

/-- Folding `addMoveTags` over a move list, starting from a tag set whose
destination fields are all clear, leaves each destination field equal to
`any` of its per-move test. -/
lemma fold_dest_of_clear (flt : List Move) (t0 : Tags)
    (hTo : t0.hlTo = false) (hPos : t0.positional = false) (hCap : t0.capture = false)
    (hDp : t0.doublePush = false) (hEp : t0.enPassant = false)
    (hProm : t0.promotion = false) (hCas : t0.castle = false)
    (hKc : t0.kingCastle = false) (hQc : t0.queenCastle = false) :
    (flt.foldl (fun t m => addMoveTags m t) t0).hlTo = (flt.any fun _ => true) ∧
    (flt.foldl (fun t m => addMoveTags m t) t0).positional
      = (flt.any fun m => m.getKind == .positional) ∧
    (flt.foldl (fun t m => addMoveTags m t) t0).capture = (flt.any fun m => m.isCapture) ∧
    (flt.foldl (fun t m => addMoveTags m t) t0).doublePush
      = (flt.any fun m => m.getKind == .doublePawnPush) ∧
    (flt.foldl (fun t m => addMoveTags m t) t0).enPassant
      = (flt.any fun m => m.getKind == .enPassantCapture) ∧
    (flt.foldl (fun t m => addMoveTags m t) t0).promotion
      = (flt.any fun m => m.isPromotion) ∧
    (flt.foldl (fun t m => addMoveTags m t) t0).castle = (flt.any fun m => m.isCastle) ∧
    (flt.foldl (fun t m => addMoveTags m t) t0).kingCastle
      = (flt.any fun m => m.getKind == .kingCastle) ∧
    (flt.foldl (fun t m => addMoveTags m t) t0).queenCastle
      = (flt.any fun m => m.getKind == .queenCastle) := by
  refine ⟨?_, ?_, ?_, ?_, ?_, ?_, ?_, ?_, ?_⟩
  · rw [foldTags_field Tags.hlTo (fun _ => true) (by intro m t; simp [addMoveTags]),
      hTo, Bool.false_or]
  · rw [foldTags_field Tags.positional (fun m => m.getKind == .positional) (fun m t => rfl),
      hPos, Bool.false_or]
  · rw [foldTags_field Tags.capture (fun m => m.isCapture) (fun m t => rfl),
      hCap, Bool.false_or]
  · rw [foldTags_field Tags.doublePush (fun m => m.getKind == .doublePawnPush) (fun m t => rfl),
      hDp, Bool.false_or]
  · rw [foldTags_field Tags.enPassant (fun m => m.getKind == .enPassantCapture) (fun m t => rfl),
      hEp, Bool.false_or]
  · rw [foldTags_field Tags.promotion (fun m => m.isPromotion) (fun m t => rfl),
      hProm, Bool.false_or]
  · rw [foldTags_field Tags.castle (fun m => m.isCastle) (fun m t => rfl),
      hCas, Bool.false_or]
  · rw [foldTags_field Tags.kingCastle (fun m => m.getKind == .kingCastle) (fun m t => rfl),
      hKc, Bool.false_or]
  · rw [foldTags_field Tags.queenCastle (fun m => m.getKind == .queenCastle) (fun m t => rfl),
      hQc, Bool.false_or]

/-- `any` over the moves matching a fixed (origin, destination) pair, as an
existential over the full move list. -/
lemma tag_iff_exists (moves : List Move) (hov i : Fin 64) (g : Move → Bool) (P : Move → Prop)
    (hg : ∀ m, g m = true ↔ P m) :
    ((moves.filter fun m => m.getFrom == hov && m.getTo == i).any g = true)
      ↔ ∃ m ∈ moves, m.getFrom = hov ∧ m.getTo = i ∧ P m := by
  rw [List.any_eq_true]
  constructor
  · rintro ⟨m, hm, hgm⟩
    rw [List.mem_filter] at hm
    obtain ⟨hmem, hpred⟩ := hm
    simp only [Bool.and_eq_true, beq_iff_eq] at hpred
    exact ⟨m, hmem, hpred.1, hpred.2, (hg m).mp hgm⟩
  · rintro ⟨m, hmem, h1, h2, hp⟩
    refine ⟨m, ?_, (hg m).mpr hp⟩
    rw [List.mem_filter]
    exact ⟨hmem, by simp [h1, h2]⟩

end Chess

namespace Chess

/-- The destination fields of a moving-clear tag set are still clear after
the conditional `from` toggle applied at the hovered square. -/
lemma ifInit_dest_clear (c : Prop) [Decidable c] (t0 : Tags) (ht0 : t0.movingClear) :
    (if c then { t0 with hlFrom := true } else t0).hlTo = false ∧
    (if c then { t0 with hlFrom := true } else t0).positional = false ∧
    (if c then { t0 with hlFrom := true } else t0).capture = false ∧
    (if c then { t0 with hlFrom := true } else t0).doublePush = false ∧
    (if c then { t0 with hlFrom := true } else t0).enPassant = false ∧
    (if c then { t0 with hlFrom := true } else t0).promotion = false ∧
    (if c then { t0 with hlFrom := true } else t0).castle = false ∧
    (if c then { t0 with hlFrom := true } else t0).kingCastle = false ∧
    (if c then { t0 with hlFrom := true } else t0).queenCastle = false := by
  obtain ⟨_, c2, c3, c4, c5, c6, c7, c8, c9, c10⟩ := ht0
  by_cases hc : c <;> simp [hc, c2, c3, c4, c5, c6, c7, c8, c9, c10]

end Chess

/-- Claim C8: hovering a can-move origin (not mid-drag) tags, for every legal
move sharing that origin, the destination square and its piece node with
`to` plus exactly the applicable subtype tags (`positional`, `capture`,
`double-push`, `en-passant`, `promotion`, `castle`, `king-castle`,
`queen-castle`), additively over all moves reaching that destination. -/
theorem C8_hover_destination_tags (moves : List Chess.Move) (hov : Fin 64) (b : Chess.Board)
    (hfrom : (moves.any fun m => m.getFrom == hov) = true)
    (hclean : ∀ j : Fin 64, (b j).tags.movingClear ∧ ∀ n ∈ (b j).pieceNodes, n.tags.movingClear)
    (i : Fin 64) :
    (((Chess.mouseEnter moves false hov b) i).tags.hlTo = true ↔
        ∃ m ∈ moves, m.getFrom = hov ∧ m.getTo = i) ∧
    (((Chess.mouseEnter moves false hov b) i).tags.positional = true ↔
        ∃ m ∈ moves, m.getFrom = hov ∧ m.getTo = i ∧ m.getKind = .positional) ∧
    (((Chess.mouseEnter moves false hov b) i).tags.capture = true ↔
        ∃ m ∈ moves, m.getFrom = hov ∧ m.getTo = i ∧ m.isCapture = true) ∧
    (((Chess.mouseEnter moves false hov b) i).tags.doublePush = true ↔
        ∃ m ∈ moves, m.getFrom = hov ∧ m.getTo = i ∧ m.getKind = .doublePawnPush) ∧
    (((Chess.mouseEnter moves false hov b) i).tags.enPassant = true ↔
        ∃ m ∈ moves, m.getFrom = hov ∧ m.getTo = i ∧ m.getKind = .enPassantCapture) ∧
    (((Chess.mouseEnter moves false hov b) i).tags.promotion = true ↔
        ∃ m ∈ moves, m.getFrom = hov ∧ m.getTo = i ∧ m.isPromotion = true) ∧
    (((Chess.mouseEnter moves false hov b) i).tags.castle = true ↔
        ∃ m ∈ moves, m.getFrom = hov ∧ m.getTo = i ∧ m.isCastle = true) ∧
    (((Chess.mouseEnter moves false hov b) i).tags.kingCastle = true ↔
        ∃ m ∈ moves, m.getFrom = hov ∧ m.getTo = i ∧ m.getKind = .kingCastle) ∧
    (((Chess.mouseEnter moves false hov b) i).tags.queenCastle = true ↔
        ∃ m ∈ moves, m.getFrom = hov ∧ m.getTo = i ∧ m.getKind = .queenCastle) ∧
    (∀ n ∈ ((Chess.mouseEnter moves false hov b) i).pieceNodes,
      n.tags.hlTo = ((Chess.mouseEnter moves false hov b) i).tags.hlTo ∧
      n.tags.positional = ((Chess.mouseEnter moves false hov b) i).tags.positional ∧
      n.tags.capture = ((Chess.mouseEnter moves false hov b) i).tags.capture ∧
      n.tags.doublePush = ((Chess.mouseEnter moves false hov b) i).tags.doublePush ∧
      n.tags.enPassant = ((Chess.mouseEnter moves false hov b) i).tags.enPassant ∧
      n.tags.promotion = ((Chess.mouseEnter moves false hov b) i).tags.promotion ∧
      n.tags.castle = ((Chess.mouseEnter moves false hov b) i).tags.castle ∧
      n.tags.kingCastle = ((Chess.mouseEnter moves false hov b) i).tags.kingCastle ∧
      n.tags.queenCastle = ((Chess.mouseEnter moves false hov b) i).tags.queenCastle) := by
  obtain ⟨hsq, hnd⟩ := Chess.mouseEnter_apply moves hov b hfrom i
  obtain ⟨iTo, iPos, iCap, iDp, iEp, iProm, iCas, iKc, iQc⟩ :=
    Chess.ifInit_dest_clear (i = hov) ((b i).tags) (hclean i).1
  obtain ⟨dTo, dPos, dCap, dDp, dEp, dProm, dCas, dKc, dQc⟩ :=
    Chess.fold_dest_of_clear (moves.filter fun m => m.getFrom == hov && m.getTo == i)
      (if i = hov then { (b i).tags with hlFrom := true } else (b i).tags)
      iTo iPos iCap iDp iEp iProm iCas iKc iQc
  refine ⟨?_, ?_, ?_, ?_, ?_, ?_, ?_, ?_, ?_, ?_⟩
  · rw [hsq, dTo, Chess.tag_iff_exists moves hov i (fun _ => true) (fun _ => True)
      (by intro m; simp)]
    simp
  · rw [hsq, dPos]
    exact Chess.tag_iff_exists moves hov i _ _ fun m => beq_iff_eq
  · rw [hsq, dCap]
    exact Chess.tag_iff_exists moves hov i _ _ fun m => Iff.rfl
  · rw [hsq, dDp]
    exact Chess.tag_iff_exists moves hov i _ _ fun m => beq_iff_eq
  · rw [hsq, dEp]
    exact Chess.tag_iff_exists moves hov i _ _ fun m => beq_iff_eq
  · rw [hsq, dProm]
    exact Chess.tag_iff_exists moves hov i _ _ fun m => Iff.rfl
  · rw [hsq, dCas]
    exact Chess.tag_iff_exists moves hov i _ _ fun m => Iff.rfl
  · rw [hsq, dKc]
    exact Chess.tag_iff_exists moves hov i _ _ fun m => beq_iff_eq
  · rw [hsq, dQc]
    exact Chess.tag_iff_exists moves hov i _ _ fun m => beq_iff_eq
  · intro n hn
    have hmem : n.tags ∈ ((Chess.mouseEnter moves false hov b) i).pieceNodes.map
        Chess.PieceNode.tags := List.mem_map_of_mem _ hn
    rw [hnd] at hmem
    obtain ⟨n0, hn0, htags⟩ := List.mem_map.mp hmem
    obtain ⟨jTo, jPos, jCap, jDp, jEp, jProm, jCas, jKc, jQc⟩ :=
      Chess.ifInit_dest_clear (i = hov) n0.tags ((hclean i).2 n0 hn0)
    obtain ⟨eTo, ePos, eCap, eDp, eEp, eProm, eCas, eKc, eQc⟩ :=
      Chess.fold_dest_of_clear (moves.filter fun m => m.getFrom == hov && m.getTo == i)
        (if i = hov then { n0.tags with hlFrom := true } else n0.tags)
        jTo jPos jCap jDp jEp jProm jCas jKc jQc
    rw [← htags, hsq]
    exact ⟨by rw [eTo, dTo], by rw [ePos, dPos], by rw [eCap, dCap], by rw [eDp, dDp],
      by rw [eEp, dEp], by rw [eProm, dProm], by rw [eCas, dCas], by rw [eKc, dKc],
      by rw [eQc, dQc]⟩

/-! ### Witnesses -/

/-- Witness for C1: dropping the double-push `mv0` on its own destination
with `mv0` the unique match submits `mv0` once and resynchronizes once. -/
theorem C1_unique_drop_commit_witness :
    (Chess.mv0 ∈ [Chess.mv0] ∧ Chess.mv0.getFrom = 12 ∧ Chess.mv0.getTo = 28 ∧
      (∀ m' ∈ [Chess.mv0], m'.getFrom = 12 → m'.getTo = 28 → m' = Chess.mv0)) ∧
    Chess.onDrop [Chess.mv0] 12 28 =
      [.makeMoveCall Chess.mv0, .updateChessPositionCall] :=
  ⟨⟨by decide, by decide, by decide, by decide⟩,
    C1_unique_drop_commit [Chess.mv0] 12 28 Chess.mv0
      (by decide) (by decide) (by decide) (by decide)⟩

/-- Witness for C3: on the two-king position `wfPos`, square 4 renders a
single white king node matching the occupancy data. -/
theorem C3_piece_nodes_match_occupancy_witness :
    Chess.wfPos.WF ∧
    ((((Chess.updatePieces Chess.wfPos Chess.emptyBoard) 4).pieceNodes ≠ [] ↔
      (Chess.wfPos.getColorBitboard .white 4 = true ∨
        Chess.wfPos.getColorBitboard .black 4 = true)) ∧
    ((Chess.updatePieces Chess.wfPos Chess.emptyBoard) 4).pieceNodes.length ≤ 1 ∧
    ∀ n ∈ ((Chess.updatePieces Chess.wfPos Chess.emptyBoard) 4).pieceNodes,
      n.whiteClass = Chess.wfPos.getColorBitboard .white 4 ∧
      n.blackClass = Chess.wfPos.getColorBitboard .black 4 ∧
      Chess.wfPos.getPieceBitboard n.pieceType 4 = true ∧
      (∀ q, Chess.wfPos.getPieceBitboard q 4 = true → q = n.pieceType) ∧
      (n.charColor = .white ↔ Chess.wfPos.getColorBitboard .white 4 = true) ∧
      (n.turnClass = true ↔ n.charColor = Chess.wfPos.getTurnColor)) :=
  ⟨by decide, C3_piece_nodes_match_occupancy Chess.wfPos Chess.emptyBoard (by decide) 4⟩

/-- Witness for C4: on `wfPos`, the king is the first (and only) matching
scan entry at square 4, rendered as a white piece with the turn flag set. -/
theorem C4_first_match_render_witness :
    (Chess.pieceScanOrder
        = [.pawn, .knight, .bishop, .rook, .queen] ++ Chess.Piece.king :: [] ∧
      (∀ q ∈ ([.pawn, .knight, .bishop, .rook, .queen] : List Chess.Piece),
        Chess.wfPos.getPieceBitboard q 4 = false) ∧
      Chess.wfPos.getPieceBitboard .king 4 = true ∧
      (∀ c, Chess.wfPos.getColorBitboard c 4 = true ↔ c = .white)) ∧
    ∃ node : Chess.PieceNode,
      ((Chess.updatePieces Chess.wfPos Chess.emptyBoard) 4).pieceNodes = [node] ∧
      node.pieceType = .king ∧
      node.charColor = .white ∧
      (node.whiteClass = true ↔ Chess.PieceColor.white = .white) ∧
      (node.blackClass = true ↔ Chess.PieceColor.white = .black) ∧
      (node.turnClass = true ↔ Chess.wfPos.getTurnColor = .white) :=
  ⟨⟨by decide, by decide, by decide, by decide⟩,
    C4_first_match_render Chess.wfPos Chess.emptyBoard 4
      [.pawn, .knight, .bishop, .rook, .queen] [] .king .white
      (by decide) (by decide) (by decide) (by decide)⟩

/-- Witness for C5: the checkmated position `matedPos` (white to move)
prompts with the winner named Black; accepting restarts into `samplePos`. -/
theorem C5_checkmate_lifecycle_witness :
    (Chess.matedPos.getStatus = .checkmate ∧ Chess.samplePos.getStatus = .normal) ∧
    ((∀ c, Chess.winnerName Chess.matedPos = Chess.colorName c ↔
        c ≠ Chess.matedPos.getTurnColor) ∧
    ((fun _ : Nat => true) 0 = true →
      Chess.updateChessPositionT Chess.samplePos (fun _ => true) 2 0 Chess.matedPos =
        (Chess.resyncEvs ++ [.confirmCall (Chess.checkmateMsg Chess.matedPos),
          .newPositionCall] ++ Chess.resyncEvs, Chess.samplePos)) ∧
    ((fun _ : Nat => true) 0 = false →
      Chess.updateChessPositionT Chess.samplePos (fun _ => true) 2 0 Chess.matedPos =
        (Chess.resyncEvs ++ [.confirmCall (Chess.checkmateMsg Chess.matedPos)],
          Chess.matedPos))) :=
  ⟨⟨by decide, by decide⟩,
    C5_checkmate_lifecycle Chess.matedPos Chess.samplePos (fun _ => true)
      (by decide) (by decide)⟩

/-- Witness for C6 (amended): dropping `mv0`'s piece on square 20, which no
legal move reaches, emits only the clearing calls and clears the hover tags
and bindings everywhere. -/
theorem C6_invalid_drop_no_mutation_witness :
    (∀ m ∈ [Chess.mv0], ¬(m.getFrom = 12 ∧ m.getTo = 20)) ∧
    (Chess.onDrop [Chess.mv0] 12 20 = [.clearMovingCall, .clearDraggingCall] ∧
    (∀ m, Chess.UIEvent.makeMoveCall m ∉ Chess.onDrop [Chess.mv0] 12 20) ∧
    ∀ (b : Chess.Board) (i : Fin 64),
      ((Chess.clearDragging (Chess.clearMoving b)) i).tags.movingClear ∧
      ((Chess.clearDragging (Chess.clearMoving b)) i).tags.canMove = (b i).tags.canMove ∧
      ((Chess.clearDragging (Chess.clearMoving b)) i).droppable = false ∧
      ∀ n ∈ ((Chess.clearDragging (Chess.clearMoving b)) i).pieceNodes,
        n.tags.movingClear ∧ n.draggable = false) :=
  ⟨by decide, C6_invalid_drop_no_mutation [Chess.mv0] 12 20 (by decide)⟩

/-- Witness for C7: with two promotion moves to square 60, the drop commits
the first of them. -/
theorem C7_ambiguous_drop_first_match_witness :
    ((∀ m' ∈ ([] : List Chess.Move), ¬(m'.getFrom = 52 ∧ m'.getTo = 60)) ∧
      Chess.promoMove.getFrom = 52 ∧ Chess.promoMove.getTo = 60 ∧
      (∃ m' ∈ [Chess.promoCaptureMove], m'.getFrom = 52 ∧ m'.getTo = 60)) ∧
    Chess.onDrop ([] ++ Chess.promoMove :: [Chess.promoCaptureMove]) 52 60 =
      [.makeMoveCall Chess.promoMove, .updateChessPositionCall] :=
  ⟨⟨by decide, by decide, by decide, by decide⟩,
    C7_ambiguous_drop_first_match [] [Chess.promoCaptureMove] 52 60 Chess.promoMove
      (by decide) (by decide) (by decide) (by decide)⟩

/-- Witness for C8: hovering square 52 with the two promotion moves tags
square 60 `to`, `capture` and `promotion` (and no other subtype). -/
theorem C8_hover_destination_tags_witness :
    ((([Chess.promoMove, Chess.promoCaptureMove].any fun m => m.getFrom == 52) = true) ∧
      (∀ j : Fin 64, (Chess.emptyBoard j).tags.movingClear ∧
        ∀ n ∈ (Chess.emptyBoard j).pieceNodes, n.tags.movingClear)) ∧
    ((((Chess.mouseEnter [Chess.promoMove, Chess.promoCaptureMove] false 52
          Chess.emptyBoard) 60).tags.hlTo = true ↔
        ∃ m ∈ [Chess.promoMove, Chess.promoCaptureMove],
          m.getFrom = 52 ∧ m.getTo = 60) ∧
    (((Chess.mouseEnter [Chess.promoMove, Chess.promoCaptureMove] false 52
          Chess.emptyBoard) 60).tags.positional = true ↔
        ∃ m ∈ [Chess.promoMove, Chess.promoCaptureMove],
          m.getFrom = 52 ∧ m.getTo = 60 ∧ m.getKind = .positional) ∧
    (((Chess.mouseEnter [Chess.promoMove, Chess.promoCaptureMove] false 52
          Chess.emptyBoard) 60).tags.capture = true ↔
        ∃ m ∈ [Chess.promoMove, Chess.promoCaptureMove],
          m.getFrom = 52 ∧ m.getTo = 60 ∧ m.isCapture = true) ∧
    (((Chess.mouseEnter [Chess.promoMove, Chess.promoCaptureMove] false 52
          Chess.emptyBoard) 60).tags.doublePush = true ↔
        ∃ m ∈ [Chess.promoMove, Chess.promoCaptureMove],
          m.getFrom = 52 ∧ m.getTo = 60 ∧ m.getKind = .doublePawnPush) ∧
    (((Chess.mouseEnter [Chess.promoMove, Chess.promoCaptureMove] false 52
          Chess.emptyBoard) 60).tags.enPassant = true ↔
        ∃ m ∈ [Chess.promoMove, Chess.promoCaptureMove],
          m.getFrom = 52 ∧ m.getTo = 60 ∧ m.getKind = .enPassantCapture) ∧
    (((Chess.mouseEnter [Chess.promoMove, Chess.promoCaptureMove] false 52
          Chess.emptyBoard) 60).tags.promotion = true ↔
        ∃ m ∈ [Chess.promoMove, Chess.promoCaptureMove],
          m.getFrom = 52 ∧ m.getTo = 60 ∧ m.isPromotion = true) ∧
    (((Chess.mouseEnter [Chess.promoMove, Chess.promoCaptureMove] false 52
          Chess.emptyBoard) 60).tags.castle = true ↔
        ∃ m ∈ [Chess.promoMove, Chess.promoCaptureMove],
          m.getFrom = 52 ∧ m.getTo = 60 ∧ m.isCastle = true) ∧
    (((Chess.mouseEnter [Chess.promoMove, Chess.promoCaptureMove] false 52
          Chess.emptyBoard) 60).tags.kingCastle = true ↔
        ∃ m ∈ [Chess.promoMove, Chess.promoCaptureMove],
          m.getFrom = 52 ∧ m.getTo = 60 ∧ m.getKind = .kingCastle) ∧
    (((Chess.mouseEnter [Chess.promoMove, Chess.promoCaptureMove] false 52
          Chess.emptyBoard) 60).tags.queenCastle = true ↔
        ∃ m ∈ [Chess.promoMove, Chess.promoCaptureMove],
          m.getFrom = 52 ∧ m.getTo = 60 ∧ m.getKind = .queenCastle) ∧
    (∀ n ∈ ((Chess.mouseEnter [Chess.promoMove, Chess.promoCaptureMove] false 52
          Chess.emptyBoard) 60).pieceNodes,
      n.tags.hlTo = ((Chess.mouseEnter [Chess.promoMove, Chess.promoCaptureMove] false 52
          Chess.emptyBoard) 60).tags.hlTo ∧
      n.tags.positional = ((Chess.mouseEnter [Chess.promoMove, Chess.promoCaptureMove]
          false 52 Chess.emptyBoard) 60).tags.positional ∧
      n.tags.capture = ((Chess.mouseEnter [Chess.promoMove, Chess.promoCaptureMove]
          false 52 Chess.emptyBoard) 60).tags.capture ∧
      n.tags.doublePush = ((Chess.mouseEnter [Chess.promoMove, Chess.promoCaptureMove]
          false 52 Chess.emptyBoard) 60).tags.doublePush ∧
      n.tags.enPassant = ((Chess.mouseEnter [Chess.promoMove, Chess.promoCaptureMove]
          false 52 Chess.emptyBoard) 60).tags.enPassant ∧
      n.tags.promotion = ((Chess.mouseEnter [Chess.promoMove, Chess.promoCaptureMove]
          false 52 Chess.emptyBoard) 60).tags.promotion ∧
      n.tags.castle = ((Chess.mouseEnter [Chess.promoMove, Chess.promoCaptureMove]
          false 52 Chess.emptyBoard) 60).tags.castle ∧
      n.tags.kingCastle = ((Chess.mouseEnter [Chess.promoMove, Chess.promoCaptureMove]
          false 52 Chess.emptyBoard) 60).tags.kingCastle ∧
      n.tags.queenCastle = ((Chess.mouseEnter [Chess.promoMove, Chess.promoCaptureMove]
          false 52 Chess.emptyBoard) 60).tags.queenCastle)) :=
  ⟨⟨by decide, by decide⟩,
    C8_hover_destination_tags [Chess.promoMove, Chess.promoCaptureMove] 52
      Chess.emptyBoard (by decide) (by decide) 60⟩

/-- Witness for C9: the stray rook on square 0 of `strayRookPos`, contained
in no color occupancy set, renders as a black piece with neither color
class. -/
theorem C9_black_by_default_witness :
    Chess.strayRookPos.getColorBitboard .white 0 = false ∧
    (((∃ p ∈ Chess.pieceScanOrder, Chess.strayRookPos.getPieceBitboard p 0 = true) →
        ((Chess.updatePieces Chess.strayRookPos Chess.emptyBoard) 0).pieceNodes ≠ []) ∧
    ∀ n ∈ ((Chess.updatePieces Chess.strayRookPos Chess.emptyBoard) 0).pieceNodes,
      n.charColor = .black ∧ n.whiteClass = false ∧
        n.blackClass = Chess.strayRookPos.getColorBitboard .black 0) :=
  ⟨by decide, C9_black_by_default Chess.strayRookPos Chess.emptyBoard 0 (by decide)⟩
